import Mathlib

/-!
Verification development for the aprendo repository.

The file embeds, as executable Lean definitions, the parts of the code the
claims are about:

* tools/etl_csv.py — the rule-based CSV normalization pipeline
  (transform_csv and the eight transformation rules wired up in main).
* app/aprendo/translations/csv.py — the CsvTranslations store
  (load_translations, get_translations, get_bulgarian_translations,
  get_spanish_translations, get_word_for_translation, _init_db) with the
  sqlite tables embedded as association lists.
* app/aprendo/pages/translation.py — TranslationState.validate_translation_ranges.
* app/aprendo/components/translation_settings_dialog.py —
  TranslationSettingsDialog._validate_translation_ranges and
  apply_translation_ranges.

Python strings are embedded as Lean String values; where a proof has to look
at individual characters the definitions work on List Char, the sequence of
code points, which is exactly how Python indexes and slices its strings.
Randomness in the sqlite queries that say ORDER BY RANDOM() LIMIT 1 is
embedded by passing an arbitrary natural number draw and picking the element
at that position modulo the length of the candidate row list, so the result
is exactly one of the rows the query can return, or none when the query has
no rows.
-/

/-! ## Character-level embeddings of the Python string primitives.

They operate on List Char, the code point sequence, which is how Python
indexes and slices its strings; each is structurally recursive so that
concrete runs reduce inside the kernel.  The String-to-String wrappers
below them are the forms the embedded functions use. -/

/-- Embeds Python str.strip for the stripped characters space, tab, carriage
return and newline (the inputs the claims touch hold no exotic whitespace). -/
def trimChars (l : List Char) : List Char :=
  ((l.dropWhile Char.isWhitespace).reverse.dropWhile Char.isWhitespace).reverse

/-- Embeds Python str.split with a single-character separator: the separator
occurrences cut the sequence, empty segments included. -/
def splitOnChar (c : Char) : List Char → List (List Char)
  | [] => [[]]
  | x :: xs =>
    if x = c then [] :: splitOnChar c xs
    else
      match splitOnChar c xs with
      | [] => [[x]]
      | h :: t => (x :: h) :: t

/-- Embeds Python str.split(sep, 1) for a single-character separator known to
occur: everything before the first occurrence, and everything after it. -/
def splitFirst (c : Char) : List Char → List Char × List Char
  | [] => ([], [])
  | x :: xs =>
    if x = c then ([], xs)
    else
      let r := splitFirst c xs
      (x :: r.1, r.2)

/-- Whether the first sequence starts the second. -/
def isPrefixC : List Char → List Char → Bool
  | [], _ => true
  | _ :: _, [] => false
  | c :: cs, x :: xs => c = x && isPrefixC cs xs

/-- Embeds the Python containment test sub in s for a non-empty sub: some
tail of the sequence starts with sub. -/
def containsSub (sub : List Char) : List Char → Bool
  | [] => sub.isEmpty
  | x :: xs => isPrefixC sub (x :: xs) || containsSub sub xs

/-- Worker for splitOnSub; the fuel starts at the sequence length and every
step consumes at least one character, so the zero-fuel branch is never
taken on the initial call. -/
def splitOnSubAux (sep : List Char) : Nat → List Char → List Char →
    List (List Char)
  | _, [], acc => [acc.reverse]
  | 0, l, acc => [acc.reverse ++ l]
  | n + 1, x :: xs, acc =>
    if isPrefixC sep (x :: xs) then
      acc.reverse :: splitOnSubAux sep n (List.drop (sep.length - 1) xs) []
    else
      splitOnSubAux sep n xs (x :: acc)

/-- Embeds Python str.split(sep) for a non-empty sep: cut at every
non-overlapping occurrence, scanning left to right. -/
def splitOnSub (sep l : List Char) : List (List Char) :=
  if sep.isEmpty then [l] else splitOnSubAux sep l.length l []

/-- Worker for replaceSub, fueled like splitOnSubAux. -/
def replaceSubAux (sub repl : List Char) : Nat → List Char → List Char
  | _, [] => []
  | 0, l => l
  | n + 1, x :: xs =>
    if isPrefixC sub (x :: xs) then
      repl ++ replaceSubAux sub repl n (List.drop (sub.length - 1) xs)
    else
      x :: replaceSubAux sub repl n xs

/-- Embeds Python str.replace for a non-empty pattern: replace every
non-overlapping occurrence, scanning left to right. -/
def replaceSub (sub repl l : List Char) : List Char :=
  if sub.isEmpty then l else replaceSubAux sub repl l.length l

/-- Numeric value of a decimal digit character. -/
def digitVal (c : Char) : Nat := c.toNat - '0'.toNat

/-- Decimal reading of a non-empty all-digit character sequence. -/
def parseDigits (l : List Char) : Option Nat :=
  if l.isEmpty then none
  else if l.all Char.isDigit then some (l.foldl (fun n c => n * 10 + digitVal c) 0)
  else none

/-- Embeds the Python built-in int applied to an already stripped token: an
optional sign followed by decimal digits; anything else raises ValueError,
embedded as none.  Pythonic extras such as digit group underscores or
non-ASCII digits are outside the shapes the claims touch. -/
def pyIntChars (l : List Char) : Option Int :=
  match l with
  | [] => none
  | c :: rest =>
    if c = '-' then (parseDigits rest).map (fun n => -(n : Int))
    else if c = '+' then (parseDigits rest).map (fun n => (n : Int))
    else (parseDigits l).map (fun n => (n : Int))

/-- Embeds Python str.strip on Lean strings. -/
def pyStrip (s : String) : String := (trimChars s.data).asString

/-- Embeds Python str.startswith. -/
def pyStartsWith (s p : String) : Bool := isPrefixC p.data s.data

/-- Embeds Python str.endswith. -/
def pyEndsWith (s p : String) : Bool := isPrefixC p.data.reverse s.data.reverse

/-- Embeds Python str.split(sep) on Lean strings. -/
def pySplit (s sep : String) : List String :=
  (splitOnSub sep.data s.data).map List.asString

/-- Embeds Python str.replace on Lean strings. -/
def pyReplace (s sub repl : String) : String :=
  (replaceSub sub.data repl.data s.data).asString

/-! ## Rules of tools/etl_csv.py -/

/-- A transformation rule: given one (spanish, bulgarian) pair it returns
none (rule does not apply) or the replacement list of pairs.  This is the
contract documented in the transform_csv docstring. -/
abbrev Rule := String × String → Option (List (String × String))

/-- Substring containment test, embedding the Python expression
sub in s. -/
def strContains (s sub : String) : Bool := containsSub sub.data s.data

/-- Embeds clean_verb_markers of tools/etl_csv.py. -/
def clean_verb_markers (row : String × String) : Option (List (String × String)) :=
  if strContains row.2 "/глагол" then
    some [(pyStrip row.1, pyStrip (pyReplace row.2 "/глагол" ""))]
  else
    none

/-- The Spanish pronoun list of clean_verb_conjugation. -/
def spanishPronouns : List String :=
  ["yo ", "tú ", "él/ella", "él / ella / usted ", "nosotros / nosotras ",
   "vosotros / vosotras ", "ellos / ellas / ustedes ", "nosotros/as ",
   "vosotros/as ", "ellos/as "]

/-- The Bulgarian pronoun list of clean_verb_conjugation. -/
def bgPronouns : List String :=
  ["аз ", "ти ", "той / тя / Вие", "той/тя", "той ", "тя ", "Вие ", "ние ",
   "вие ", "те / Вие (мн.ч.) ", "те ", "Вие (мн.ч.) "]

/-- The loop in clean_verb_conjugation that removes the first matching
pronoun from the front of a string and stops at the first hit. -/
def dropFirstPronoun : List String → String → String
  | [], s => s
  | p :: rest, s => if pyStartsWith s p then s.drop p.length else dropFirstPronoun rest s

/-- Embeds clean_verb_conjugation of tools/etl_csv.py. -/
def clean_verb_conjugation (row : String × String) : Option (List (String × String)) :=
  if pyEndsWith row.1 "r" then
    none
  else
    let cs := dropFirstPronoun spanishPronouns row.1
    let cb := dropFirstPronoun bgPronouns row.2
    if cs = row.1 ∧ cb = row.2 then none
    else some [(pyStrip cs, pyStrip cb)]

/-- Embeds split_spanish_gender_suffix of tools/etl_csv.py.  The slicing
spanish[:-3], spanish[:-4] and base[:-1] is by code points, matching
String.dropRight. -/
def split_spanish_gender_suffix (row : String × String) : Option (List (String × String)) :=
  if row.2 = "-а" then
    none
  else if pyEndsWith row.1 "o/a" then
    let base := row.1.dropRight 3
    some [(base ++ "o", row.2), (base ++ "a", row.2)]
  else if pyEndsWith row.1 ", -a" then
    let base := row.1.dropRight 4
    some [(base, row.2), (base.dropRight 1 ++ "a", row.2)]
  else
    none

/-- Embeds the closure produced by split_by_delimiter of tools/etl_csv.py.
Python str.split on a non-empty separator is String.splitOn. -/
def split_by_delimiter (delimiter : String) (row : String × String) :
    Option (List (String × String)) :=
  if ¬ (strContains row.1 delimiter ∧ strContains row.2 delimiter) then
    none
  else
    let spanish_words := (pySplit row.1 delimiter).map pyStrip
    let bulgarian_words := (pySplit row.2 delimiter).map pyStrip
    if spanish_words.length ≠ bulgarian_words.length then none
    else some (spanish_words.zip bulgarian_words)

/-- Embeds split_by_comma of tools/etl_csv.py. -/
def split_by_comma (row : String × String) : Option (List (String × String)) :=
  if ¬ strContains row.2 "," then none
  else some (((pySplit row.2 ",").map pyStrip).map (fun t => (pyStrip row.1, t)))

/-- Embeds split_by_slash of tools/etl_csv.py. -/
def split_by_slash (row : String × String) : Option (List (String × String)) :=
  if ¬ strContains row.2 "/" then none
  else some (((pySplit row.2 "/").map pyStrip).map (fun t => (pyStrip row.1, t)))

/-- Embeds basic_cleanup of tools/etl_csv.py. -/
def basic_cleanup (row : String × String) : Option (List (String × String)) :=
  let spanish := pyStrip row.1
  let bulgarian := pyStrip row.2
  if spanish = "" ∨ bulgarian = "" then none
  else some [(spanish, bulgarian)]

/-- The transformation list built in main of tools/etl_csv.py, in order. -/
def mainTransformations : List Rule :=
  [clean_verb_markers,
   clean_verb_conjugation,
   split_spanish_gender_suffix,
   split_by_delimiter ",",
   split_by_delimiter "/",
   split_by_comma,
   split_by_slash,
   basic_cleanup]

/-! ## The chain loop of transform_csv -/

/-- The inner loop of transform_csv: for pair in current_pairs, apply the
rule, and extend the accumulator new_pairs with every non-None result. -/
def applyTransformAll (t : Rule) : List (String × String) → List (String × String) →
    List (String × String)
  | [], new_pairs => new_pairs
  | p :: rest, new_pairs =>
    match t p with
    | some res => applyTransformAll t rest (new_pairs ++ res)
    | none => applyTransformAll t rest new_pairs

/-- The outer loop of transform_csv: walk the transformation list; after each
rule, if new_pairs is non-empty it replaces current_pairs, otherwise
current_pairs is kept. -/
def applyChain : List Rule → List (String × String) → List (String × String)
  | [], current_pairs => current_pairs
  | t :: ts, current_pairs =>
    let new_pairs := applyTransformAll t current_pairs []
    applyChain ts (if new_pairs.isEmpty then current_pairs else new_pairs)

/-- The row loop of transform_csv: rows with a column count other than two
are skipped, every other row contributes the final working set of its chain
run, extended onto results in order. -/
def transformRows (ts : List Rule) (dataRows : List (List String)) :
    List (String × String) :=
  dataRows.foldl
    (fun results row =>
      match row with
      | [a, b] => results ++ applyChain ts [(a, b)]
      | _ => results)
    []

/-- The final list comprehension of transform_csv that filters out the noise
placeholder targets. -/
def postFilter (l : List (String × String)) : List (String × String) :=
  l.filter (fun r => ¬ (r.2 = "-а" ∨ r.2 = "а"))

/-- Embeds transform_csv of tools/etl_csv.py, from the list of CSV rows to
the list of pairs written after the header row.  The first row is the header
skipped by next(reader); on a rowless file next(reader) raises
StopIteration, embedded as none. -/
def transform_csv (ts : List Rule) (rows : List (List String)) :
    Option (List (String × String)) :=
  match rows with
  | [] => none
  | _ :: dataRows => some (postFilter (transformRows ts dataRows))

/-! ## The chain semantics as worded by the spec (section 4.1), used to state
claim C1 as a refinement of the code by the spec text. -/

/-- Spec-worded single stage: apply the rule to every pair of the working
set, concatenate the non-None results into a candidate list; a non-empty
candidate list replaces the working set, an empty one leaves it unchanged. -/
def specStep (ws : List (String × String)) (t : Rule) : List (String × String) :=
  let candidates := (ws.filterMap t).flatten
  if candidates.isEmpty then ws else candidates

/-- Spec-worded per-row contribution: fold the rule chain over the working
set that starts as the singleton of the raw pair. -/
def specRowContribution (ts : List Rule) (p : String × String) :
    List (String × String) :=
  ts.foldl specStep [p]

/-- Reading of one data row as a pair, used to describe the row skipping. -/
def rowToPair : List String → Option (String × String)
  | [a, b] => some (a, b)
  | _ => none

/-! ## The id-range validator -/

/-- Embeds the TranslationIdRange dataclass of app/aprendo/translations/types.py.
The second field is called end in the source; end is a reserved word in Lean,
so it is called stop here. -/
structure TranslationIdRange where
  start : Int
  stop : Int
deriving DecidableEq

/-- The token loop shared verbatim by TranslationState.validate_translation_ranges
(app/aprendo/pages/translation.py) and
TranslationSettingsDialog._validate_translation_ranges
(app/aprendo/components/translation_settings_dialog.py): walk the
comma-separated tokens, skip empty ones, reject the whole input at the first
malformed token, and accumulate the parsed ranges.  Returns the success flag,
the error message and the parsed ranges. -/
def validateRangesChars : List (List Char) → List TranslationIdRange →
    Bool × String × List TranslationIdRange
  | [], temp_id_ranges => (true, "", temp_id_ranges)
  | tok :: rest, temp_id_ranges =>
    let range_str := trimChars tok
    if range_str.isEmpty then validateRangesChars rest temp_id_ranges
    else if ¬ range_str.contains '-' then
      (false, "Invalid range format: " ++ range_str.asString ++
        ". Expected format: start-end", [])
    else
      let parts := splitFirst '-' range_str
      match pyIntChars (trimChars parts.1), pyIntChars (trimChars parts.2) with
      | some s, some e =>
        if s > e then
          (false, "Invalid range: " ++ toString s ++ "-" ++ toString e ++
            ". Start must be less than or equal to end.", [])
        else if s ≤ 0 ∨ e ≤ 0 then
          (false, "Invalid range: " ++ toString s ++ "-" ++ toString e ++
            ". IDs must be positive.", [])
        else validateRangesChars rest (temp_id_ranges ++ [⟨s, e⟩])
      | _, _ =>
        (false, "Invalid range format: " ++ range_str.asString ++
          ". Expected format: start-end with integer values.", [])

/-- The fields of TranslationState (app/aprendo/pages/translation.py) that
validate_translation_ranges reads and writes.  parsed_id_ranges is None
initially and after validating an empty input, embedded as an Option. -/
structure TranslationState where
  translation_ranges : String
  translation_ranges_error : String
  parsed_id_ranges : Option (List TranslationIdRange)
deriving DecidableEq

/-- Embeds TranslationState.validate_translation_ranges: the final state and
the returned flag.  The Python mutates the error field as it goes; only the
state at return time is observable and is what this value is. -/
def validate_translation_ranges (st : TranslationState) : TranslationState × Bool :=
  if (trimChars st.translation_ranges.data).isEmpty then
    ({ st with translation_ranges_error := "", parsed_id_ranges := none }, true)
  else
    let r := validateRangesChars (splitOnChar ',' st.translation_ranges.data) []
    if r.1 then
      ({ st with translation_ranges_error := "", parsed_id_ranges := some r.2.2 }, true)
    else
      ({ st with translation_ranges_error := r.2.1 }, false)

/-- The fields of TranslationSettingsDialog
(app/aprendo/components/translation_settings_dialog.py) that its validation
logic reads and writes; parsed_id_ranges defaults to the empty list there. -/
structure TranslationSettingsDialog where
  translation_ranges : String
  translation_ranges_error : String
  parsed_id_ranges : List TranslationIdRange
deriving DecidableEq

/-- Embeds TranslationSettingsDialog._validate_translation_ranges: a pure
triple of success flag, error message and parsed ranges. -/
def dialogValidateRanges (d : TranslationSettingsDialog) :
    Bool × String × List TranslationIdRange :=
  if (trimChars d.translation_ranges.data).isEmpty then (true, "", [])
  else validateRangesChars (splitOnChar ',' d.translation_ranges.data) []

/-- Embeds TranslationSettingsDialog.apply_translation_ranges: store the
returned error message, and replace the stored parsed ranges only on
success. -/
def apply_translation_ranges (d : TranslationSettingsDialog) :
    TranslationSettingsDialog :=
  let r := dialogValidateRanges d
  let d1 := { d with translation_ranges_error := r.2.1 }
  if r.1 then { d1 with parsed_id_ranges := r.2.2 } else d1

/-! ## The CsvTranslations store of app/aprendo/translations/csv.py.

The three sqlite tables of _init_db are embedded as lists of rows in
insertion order: a word table row is an (id, word) pair, a translations row
is (id, (spanish_id, bulgarian_id)).  INTEGER PRIMARY KEY assigns one more
than the largest existing id (1 on an empty table); the UNIQUE constraint on
word and the unique index on (spanish_id, bulgarian_id) make the
INSERT OR IGNORE statements keep the table unchanged when the value is
already present. -/

/-- The rowid sqlite assigns to a fresh INTEGER PRIMARY KEY row: one more
than the largest id in the table, 1 for an empty table. -/
def nextId (ids : List Nat) : Nat := ids.foldr max 0 + 1

/-- Embeds the pair of statements INSERT OR IGNORE INTO ...\_words (word)
followed by SELECT id FROM ...\_words WHERE word = ?: the updated table and
the id the select returns. -/
def insertWordGetId (tbl : List (Nat × String)) (w : String) :
    List (Nat × String) × Nat :=
  match tbl.find? (fun p => p.2 = w) with
  | some p => (tbl, p.1)
  | none =>
    let i := nextId (tbl.map Prod.fst)
    (tbl ++ [(i, w)], i)

/-- Embeds INSERT OR IGNORE INTO translations (spanish_id, bulgarian_id):
ignored when the unique index idx_translations already holds the pair. -/
def insertTranslation (ts : List (Nat × Nat × Nat)) (sid bid : Nat) :
    List (Nat × Nat × Nat) :=
  if ts.any (fun t => t.2.1 = sid ∧ t.2.2 = bid) then ts
  else ts ++ [(nextId (ts.map Prod.fst), sid, bid)]

/-- The in-memory database of CsvTranslations after _init_db. -/
structure Store where
  spanish_words : List (Nat × String)
  bulgarian_words : List (Nat × String)
  translations : List (Nat × Nat × Nat)
deriving DecidableEq

def emptyStore : Store := ⟨[], [], []⟩

/-- The body of the row loop of CsvTranslations.load_translations: strip both
sides, skip the row if either side is empty, otherwise insert both words and
the translation link. -/
def loadRow (st : Store) (row : String × String) : Store :=
  let spanish := pyStrip row.1
  let bulgarian := pyStrip row.2
  if spanish = "" ∨ bulgarian = "" then st
  else
    let s := insertWordGetId st.spanish_words spanish
    let b := insertWordGetId st.bulgarian_words bulgarian
    { spanish_words := s.1
      bulgarian_words := b.1
      translations := insertTranslation st.translations s.2 b.2 }

/-- The full row loop of CsvTranslations.load_translations over the data rows
of the CSV file (the header row is already skipped by next(reader); a row is
a pair because the loop unpacks it as for spanish, bulgarian in reader). -/
def loadFromRows (rows : List (String × String)) : Store :=
  rows.foldl loadRow emptyStore

/-- Embeds CsvTranslations as the claims see it: the csv path and the
optional connection, none until load_translations has run. -/
structure CsvTranslations where
  csv_path : String
  conn : Option Store
deriving DecidableEq

/-- Embeds CsvTranslations.load_translations: a no-op when a connection
exists, otherwise build the in-memory database from the rows the file holds
at call time (passed as an argument, standing for the file contents). -/
def load_translations (c : CsvTranslations) (fileRows : List (String × String)) :
    CsvTranslations :=
  match c.conn with
  | some _ => c
  | none => { c with conn := some (loadFromRows fileRows) }

/-- Embeds the source_lang = es branch of CsvTranslations.get_translations:
the join of the three tables ordered by the spanish word id (the word table
is kept in id order, so iterating it in list order is that ordering). -/
def get_translations_es (st : Store) : List (Nat × String × String) :=
  st.spanish_words.flatMap (fun s =>
    (st.translations.filter (fun t => t.2.1 = s.1)).filterMap (fun t =>
      (st.bulgarian_words.find? (fun b => b.1 = t.2.2)).map (fun b => (t.1, s.2, b.2))))

/-- Embeds CsvTranslations.get_bulgarian_translations: all bulgarian words
linked by some translation row to a spanish row carrying the given word. -/
def get_bulgarian_translations (st : Store) (spanish_word : String) : List String :=
  st.translations.filterMap (fun t =>
    if st.spanish_words.any (fun s => s.1 = t.2.1 ∧ s.2 = spanish_word) then
      (st.bulgarian_words.find? (fun b => b.1 = t.2.2)).map Prod.snd
    else none)

/-- Embeds CsvTranslations.get_spanish_translations, the mirror query. -/
def get_spanish_translations (st : Store) (bulgarian_word : String) : List String :=
  st.translations.filterMap (fun t =>
    if st.bulgarian_words.any (fun b => b.1 = t.2.2 ∧ b.2 = bulgarian_word) then
      (st.spanish_words.find? (fun s => s.1 = t.2.1)).map Prod.snd
    else none)

/-! ## The sampler -/

/-- The range condition get_word_for_translation builds for one
TranslationIdRange: t.id = start when the bounds coincide, else
t.id BETWEEN start AND end. -/
def inRangeCond (rg : TranslationIdRange) (id : Nat) : Prop :=
  if rg.start = rg.stop then (id : Int) = rg.start
  else rg.start ≤ (id : Int) ∧ (id : Int) ≤ rg.stop

instance (rg : TranslationIdRange) (id : Nat) : Decidable (inRangeCond rg id) := by
  unfold inRangeCond; infer_instance

/-- One row drawn from a query that ends in ORDER BY RANDOM() LIMIT 1: the
element at an arbitrary position (the draw, taken modulo the length) of the
candidate row list, none when the query yields no rows. -/
def randPick (r : Nat) (l : List α) : Option α := l.get? (r % l.length)

/-- The candidate rows of the ranged query of get_word_for_translation:
words of the source language side joined through the translation rows whose
id satisfies one of the range conditions. -/
def rangedWords (st : Store) (source_lang : String) (rs : List TranslationIdRange) :
    List String :=
  if source_lang = "es" then
    (st.translations.filter (fun t => rs.any (fun rg => inRangeCond rg t.1))).filterMap
      (fun t => (st.spanish_words.find? (fun s => s.1 = t.2.1)).map Prod.snd)
  else
    (st.translations.filter (fun t => rs.any (fun rg => inRangeCond rg t.1))).filterMap
      (fun t => (st.bulgarian_words.find? (fun b => b.1 = t.2.2)).map Prod.snd)

/-- The candidate rows of the unrestricted fallback query of
get_word_for_translation: the same join with no id condition. -/
def allJoinedWords (st : Store) (source_lang : String) : List String :=
  if source_lang = "es" then
    st.translations.filterMap
      (fun t => (st.spanish_words.find? (fun s => s.1 = t.2.1)).map Prod.snd)
  else
    st.translations.filterMap
      (fun t => (st.bulgarian_words.find? (fun b => b.1 = t.2.2)).map Prod.snd)

/-- The candidate rows of the last-resort query of get_word_for_translation:
every word of the bare word table of the source language. -/
def wordTableWords (st : Store) (source_lang : String) : List String :=
  if source_lang = "es" then st.spanish_words.map Prod.snd
  else st.bulgarian_words.map Prod.snd

/-- Embeds CsvTranslations.get_word_for_translation.  The three draws stand
for the three ORDER BY RANDOM() LIMIT 1 queries in the order the code can
run them.  The Python ends with return result[0]; when even the last query
returns no row that subscript raises a TypeError, embedded as none. -/
def get_word_for_translation (st : Store) (source_lang : String)
    (id_ranges : Option (List TranslationIdRange)) (r1 r2 r3 : Nat) :
    Option String :=
  let ranged : Option String :=
    match id_ranges with
    | some rs => if rs.isEmpty then none else randPick r1 (rangedWords st source_lang rs)
    | none => none
  match ranged with
  | some w => some w
  | none =>
    match randPick r2 (allJoinedWords st source_lang) with
    | some w => some w
    | none => randPick r3 (wordTableWords st source_lang)

/-- Modelled from the spec: the updated sampler that
TranslationState.next_word calls with three arguments and unpacks as a
(translation id, word) pair is not among the sources; only its caller is.
Spec section 4.3 sample_next: restrict the link ids to the union of the
given ranges when ranges are given and non-empty, remove the excluded ids,
pick uniformly among the survivors; when the eligible set is empty fall
back to a uniform pick among all link ids, ignoring both the ranges and the
exclusions; resolve the picked id to its source-side word. -/
def sample_next (st : Store) (source_lang : String)
    (id_ranges : Option (List TranslationIdRange)) (excluded_ids : List Nat)
    (r : Nat) : Option (Nat × String) :=
  let allIds := st.translations.map (fun t => t.1)
  let restricted :=
    match id_ranges with
    | some rs =>
      if rs.isEmpty then allIds
      else allIds.filter (fun i => rs.any (fun rg => inRangeCond rg i))
    | none => allIds
  let eligible := restricted.filter (fun i => i ∉ excluded_ids)
  let chosen := if eligible.isEmpty then randPick r allIds else randPick r eligible
  chosen.bind (fun i =>
    (st.translations.find? (fun t => t.1 = i)).bind (fun t =>
      if source_lang = "es" then
        (st.spanish_words.find? (fun s => s.1 = t.2.1)).map (fun s => (i, s.2))
      else
        (st.bulgarian_words.find? (fun b => b.1 = t.2.2)).map (fun b => (i, b.2))))

/-! ## Derived notions used to state the claims -/

/-- A normalized pair is linked in the store: some spanish row carries the
source word, some bulgarian row carries the target word, and some
translations row joins their ids. -/
def Linked (st : Store) (sp bg : String) : Prop :=
  ∃ s ∈ st.spanish_words, ∃ b ∈ st.bulgarian_words, ∃ t ∈ st.translations,
    s.2 = sp ∧ b.2 = bg ∧ t.2.1 = s.1 ∧ t.2.2 = b.1

/-- The table invariants the sqlite schema of _init_db enforces: unique ids
and unique words in each word table, and the unique index on the
(spanish_id, bulgarian_id) column pair of translations. -/
structure StoreWF (st : Store) : Prop where
  sIds : (st.spanish_words.map Prod.fst).Nodup
  sWords : (st.spanish_words.map Prod.snd).Nodup
  bIds : (st.bulgarian_words.map Prod.fst).Nodup
  bWords : (st.bulgarian_words.map Prod.snd).Nodup
  tPairs : (st.translations.map (fun t => t.2)).Nodup

/-- A concrete store whose translation link ids are exactly 1 through 20,
used to instantiate the sampling fallback claim. -/
def c2Store : Store :=
  { spanish_words := (List.range' 1 20).map (fun i => (i, "es" ++ toString i))
    bulgarian_words := (List.range' 1 20).map (fun i => (i, "bg" ++ toString i))
    translations := (List.range' 1 20).map (fun i => (i, i, i)) }

/-- A one-link store used to instantiate the sampler totality claim. -/
def oneLinkStore : Store :=
  { spanish_words := [(1, "hola")]
    bulgarian_words := [(1, "здравей")]
    translations := [(1, 1, 1)] }

/-! ## Helper lemmas about the chain loop -/

theorem applyTransformAll_eq (t : Rule) (l acc : List (String × String)) :
    applyTransformAll t l acc = acc ++ (l.filterMap t).flatten := by
  induction l generalizing acc with
  | nil => simp [applyTransformAll]
  | cons p rest ih =>
    cases h : t p with
    | none => simp [applyTransformAll, h, ih]
    | some res => simp [applyTransformAll, h, ih]

theorem applyChain_eq_foldl (ts : List Rule) (cur : List (String × String)) :
    applyChain ts cur = ts.foldl specStep cur := by
  induction ts generalizing cur with
  | nil => rfl
  | cons t ts ih =>
    simp only [applyChain, List.foldl_cons, ih, specStep, applyTransformAll_eq,
      List.nil_append]

theorem transformRows_eq_bind (ts : List Rule) (dataRows : List (List String)) :
    transformRows ts dataRows =
      (dataRows.filterMap rowToPair).flatMap (specRowContribution ts) := by
  suffices h : ∀ acc, dataRows.foldl
      (fun results row =>
        match row with
        | [a, b] => results ++ applyChain ts [(a, b)]
        | _ => results) acc =
      acc ++ (dataRows.filterMap rowToPair).flatMap (specRowContribution ts) by
    simpa [transformRows] using h []
  induction dataRows with
  | nil => intro acc; simp
  | cons row rest ih =>
    intro acc
    match row with
    | [] => simpa [rowToPair] using ih acc
    | [a] => simpa [rowToPair] using ih acc
    | [a, b] =>
      simp only [List.foldl_cons, List.filterMap_cons, rowToPair]
      rw [ih]
      simp [specRowContribution, applyChain_eq_foldl]
    | a :: b :: c :: rest2 => simpa [rowToPair] using ih acc

theorem applyChain_append (l1 l2 : List Rule) (cur : List (String × String)) :
    applyChain (l1 ++ l2) cur = applyChain l2 (applyChain l1 cur) := by
  simp [applyChain_eq_foldl, List.foldl_append]

/-! ## Claim C1 -/

/-- C1: for every input row, transform_csv computes the contribution of that row
by folding the rule chain over a working set starting as the singleton of
the raw pair — each rule is applied to every pair of the working set, the
non-None results are concatenated into a candidate list that replaces the
working set when non-empty and leaves it unchanged when empty — and after
the last rule the working set is appended to the output sequence (which the
final placeholder filter then runs over). -/
theorem C1_transform_csv_is_chain_fold (ts : List Rule) (header : List String)
    (dataRows : List (List String)) :
    transform_csv ts (header :: dataRows) =
      some (postFilter
        ((dataRows.filterMap rowToPair).flatMap (specRowContribution ts))) := by
  simp [transform_csv, transformRows_eq_bind]

/-! ## Claim C6 -/

/-- C6 counterexample: the row (trabajo/a, работа/работя) is not transformed
into the 2-element zip the claim states. -/
theorem C6_counterexample :
    applyChain mainTransformations [("trabajo/a", "работа/работя")] ≠
      [("trabajo", "работа"), ("trabaja", "работя")] := by
  decide

/-- C6 amended: the row (trabajo/a, работа/работя) fans out to four pairs:
the gendered-suffix split (which runs before both zip-splits) matches the
o/a suffix first and produces trabajo and trabaja with the unchanged
target, and the target-only slash split then splits each target, so the
delimiter zip-split never applies to this row. -/
theorem C6_row_fans_out_to_four :
    transform_csv mainTransformations
        [["Spanish", "Bulgarian"], ["trabajo/a", "работа/работя"]] =
      some [("trabajo", "работа"), ("trabajo", "работя"),
            ("trabaja", "работа"), ("trabaja", "работя")] := by
  decide

/-! ## Claim C7 -/

/-- C7 counterexample: the data row with empty source and target x is not
dropped — transform_csv emits the raw pair, whose source is empty after
trimming. -/
theorem C7_counterexample :
    transform_csv mainTransformations [["Spanish", "Bulgarian"], ["", "x"]] =
        some [("", "x")] ∧
      pyStrip "" = "" := by
  exact ⟨by decide, rfl⟩

/-- C7 amended: when the working set reaching the final basic_cleanup stage
has at least one pair that survives it, every pair the row contributes is an
output of basic_cleanup and has both sides non-empty; but when every pair of
the working set trims to an empty side, basic_cleanup returns no match for
all of them, the working set is left unchanged, and the row contributes its
raw pairs instead of being dropped. -/
theorem C7_cleanup_stage (ts : List Rule) (p : String × String) :
    (∀ q ∈ applyChain (ts ++ [basic_cleanup]) [p],
        (∃ a b : String, basic_cleanup (a, b) = some [q]) ∧ q.1 ≠ "" ∧ q.2 ≠ "")
    ∨ (applyChain (ts ++ [basic_cleanup]) [p] = applyChain ts [p] ∧
        ∀ q ∈ applyChain ts [p], basic_cleanup q = none) := by
  rw [applyChain_append]
  set ws := applyChain ts [p] with hws
  have hstep : applyChain [basic_cleanup] ws =
      if ((ws.filterMap basic_cleanup).flatten).isEmpty then ws
      else (ws.filterMap basic_cleanup).flatten := by
    simp only [applyChain, applyTransformAll_eq, List.nil_append]
  have hshape : ∀ q res, basic_cleanup q = some res →
      res = [(pyStrip q.1, pyStrip q.2)] ∧ pyStrip q.1 ≠ "" ∧ pyStrip q.2 ≠ "" := by
    intro q res h
    by_cases hc : pyStrip q.1 = "" ∨ pyStrip q.2 = ""
    · simp [basic_cleanup, hc] at h
    · push_neg at hc
      simp only [basic_cleanup] at h
      rw [if_neg (by push_neg; exact hc)] at h
      cases h
      exact ⟨rfl, hc⟩
  by_cases hempty : ((ws.filterMap basic_cleanup).flatten).isEmpty
  · right
    refine ⟨by rw [hstep, if_pos hempty], ?_⟩
    intro q hq
    cases hbc : basic_cleanup q with
    | none => rfl
    | some res =>
      exfalso
      obtain ⟨hres, -, -⟩ := hshape q res hbc
      have hmem : res ∈ ws.filterMap basic_cleanup :=
        List.mem_filterMap.mpr ⟨q, hq, hbc⟩
      have hx : (pyStrip q.1, pyStrip q.2) ∈ (ws.filterMap basic_cleanup).flatten :=
        List.mem_flatten.mpr ⟨res, hmem, by rw [hres]; exact List.mem_singleton_self _⟩
      rw [List.isEmpty_iff] at hempty
      rw [hempty] at hx
      cases hx
  · left
    intro q hq
    rw [hstep, if_neg hempty] at hq
    obtain ⟨res, hres, hqres⟩ := List.mem_flatten.mp hq
    obtain ⟨r, -, hbc⟩ := List.mem_filterMap.mp hres
    obtain ⟨hres2, h1, h2⟩ := hshape r res hbc
    rw [hres2, List.mem_singleton] at hqres
    subst hqres
    exact ⟨⟨r.1, r.2, by rw [hbc, hres2]⟩, h1, h2⟩

/-! ## Claims C8, C10, C2 -/

theorem randPick_mem {α : Type} (r : Nat) (l : List α) (h : l ≠ []) :
    ∃ x ∈ l, randPick r l = some x := by
  have hlen : 0 < l.length := List.length_pos.mpr h
  have hlt : r % l.length < l.length := Nat.mod_lt _ hlen
  exact ⟨l.get ⟨r % l.length, hlt⟩, List.get_mem l _ hlt, List.get?_eq_get hlt⟩

/-- C8 counterexample: on the fully empty store every query of
get_word_for_translation returns no row and the final return result[0]
subscripts None, embedded as none. -/
theorem C8_counterexample :
    get_word_for_translation emptyStore "es" none 0 0 0 = none := rfl

/-- C8 amended: sampling is total on every store whose source-language word
table is non-empty (every store built from at least one valid row is such):
whatever the id ranges and the draws, get_word_for_translation returns a
word, because the last-resort query over the bare word table always has a
row to return. -/
theorem C8_sampler_total_on_nonempty (st : Store) (source_lang : String)
    (id_ranges : Option (List TranslationIdRange)) (r1 r2 r3 : Nat)
    (h : wordTableWords st source_lang ≠ []) :
    ∃ w, get_word_for_translation st source_lang id_ranges r1 r2 r3 = some w := by
  unfold get_word_for_translation
  cases hr : (match id_ranges with
    | some rs => if rs.isEmpty then none
                 else randPick r1 (rangedWords st source_lang rs)
    | none => (none : Option String)) with
  | some w => exact ⟨w, rfl⟩
  | none =>
    cases h2 : randPick r2 (allJoinedWords st source_lang) with
    | some w => exact ⟨w, rfl⟩
    | none =>
      obtain ⟨w, -, hw⟩ := randPick_mem r3 (wordTableWords st source_lang) h
      exact ⟨w, by simp [h2, hw]⟩

/-- C8 witness: the amended theorem applied to a concrete one-link store. -/
theorem C8_witness :
    ∃ w, get_word_for_translation oneLinkStore "es" none 0 0 0 = some w :=
  C8_sampler_total_on_nonempty oneLinkStore "es" none 0 0 0 (by decide)

/-- C10: once load_translations has completed (the connection exists),
calling it again is a no-op whatever the file now holds: the object, its
connection and every table are unchanged. -/
theorem C10_load_translations_noop (c : CsvTranslations) (st : Store)
    (h : c.conn = some st) (fileRows : List (String × String)) :
    load_translations c fileRows = c := by
  unfold load_translations
  rw [h]

/-- C10 witness: the theorem applied to a loaded store and changed rows. -/
theorem C10_witness :
    load_translations ⟨"translations.csv", some emptyStore⟩ [("otra", "друга")] =
      ⟨"translations.csv", some emptyStore⟩ :=
  C10_load_translations_noop _ emptyStore rfl _

/-- C2: over a store whose translation link ids are exactly 1 through 20 and
whose links resolve to source-side words, the sampler called with
id_ranges equal to the single range 1-5 and excluded_ids 1,2,3,4,5 returns a
(link id, word) pair whose id lies in 1..20: the eligible set is empty, so
the sampler falls back to picking among all link ids, ignoring both the
range restriction and the exclusion set, instead of failing. -/
theorem C2_sampling_fallback (st : Store) (r : Nat)
    (hids : st.translations.map (fun t => t.1) = List.range' 1 20)
    (hres : ∀ t ∈ st.translations, ∃ s ∈ st.spanish_words, s.1 = t.2.1) :
    ∃ id w, sample_next st "es" (some [⟨1, 5⟩]) [1, 2, 3, 4, 5] r = some (id, w) ∧
      1 ≤ id ∧ id ≤ 20 := by
  simp only [sample_next]
  rw [hids]
  simp only [List.isEmpty_cons, Bool.false_eq_true, if_false]
  have heligible : List.filter (fun i => decide (i ∉ [1, 2, 3, 4, 5]))
      (List.filter
        (fun i => [(⟨1, 5⟩ : TranslationIdRange)].any fun rg => decide (inRangeCond rg i))
        (List.range' 1 20)) = [] := by decide
  rw [heligible]
  simp only [List.isEmpty_nil, if_pos rfl]
  obtain ⟨i, hi, hpick⟩ := randPick_mem r (List.range' 1 20) (by decide)
  have hibounds : 1 ≤ i ∧ i ≤ 20 := by
    rw [List.mem_range'] at hi
    omega
  obtain ⟨t, hfindt, hteq⟩ :
      ∃ t, st.translations.find? (fun t => t.1 = i) = some t ∧ t.1 = i := by
    have hmem : i ∈ st.translations.map (fun t => t.1) := by rw [hids]; exact hi
    obtain ⟨t, htmem, hteq⟩ := List.mem_map.mp hmem
    have hsome : (st.translations.find? (fun t => t.1 = i)).isSome := by
      rw [List.find?_isSome]
      exact ⟨t, htmem, by simp [hteq]⟩
    obtain ⟨t2, hfind⟩ := Option.isSome_iff_exists.mp hsome
    have ht2 := List.find?_some hfind
    simp only [decide_eq_true_eq] at ht2
    exact ⟨t2, hfind, ht2⟩
  obtain ⟨s, hsmem, hsid⟩ := hres t (List.mem_of_find?_eq_some hfindt)
  have hsome : (st.spanish_words.find? (fun x => x.1 = t.2.1)).isSome := by
    rw [List.find?_isSome]
    exact ⟨s, hsmem, by simp [hsid]⟩
  obtain ⟨s2, hs2⟩ := Option.isSome_iff_exists.mp hsome
  refine ⟨i, s2.2, ?_, hibounds.1, hibounds.2⟩
  rw [hpick]
  simp only [Option.some_bind, hfindt, if_true, hs2, Option.map_some']

/-- C2 witness: the theorem applied to a concrete store with links 1..20. -/
theorem C2_witness :
    ∃ id w, sample_next c2Store "es" (some [⟨1, 5⟩]) [1, 2, 3, 4, 5] 7 = some (id, w) ∧
      1 ≤ id ∧ id ≤ 20 :=
  C2_sampling_fallback c2Store 7 (by decide) (by decide)

/-! ## Helper lemmas about the validator characters -/

theorem digit_not_ws (c : Char) (h : c.isDigit = true) : c.isWhitespace = false := by
  simp [Char.isDigit] at h
  simp [Char.isWhitespace]
  refine ⟨⟨⟨?_, ?_⟩, ?_⟩, ?_⟩ <;> (rintro rfl; simp_all)

theorem digit_ne_special (c : Char) (h : c.isDigit = true) :
    c ≠ ',' ∧ c ≠ '-' ∧ c ≠ '+' := by
  simp [Char.isDigit] at h
  refine ⟨?_, ?_, ?_⟩ <;> (rintro rfl; simp_all)

theorem parseDigits_chars {l : List Char} {n : Nat} (h : parseDigits l = some n) :
    ∀ c ∈ l, c.isDigit = true := by
  unfold parseDigits at h
  split at h
  · cases h
  · split at h
    · rw [List.all_eq_true] at *
      intro c hc
      rename_i hall
      exact hall c hc
    · cases h

theorem pyIntChars_pos_chars {l : List Char} {i : Int} (h : pyIntChars l = some i)
    (hi : 1 ≤ i) : ∀ c ∈ l, c = '+' ∨ c.isDigit = true := by
  cases l with
  | nil => cases h
  | cons c rest =>
    simp only [pyIntChars] at h
    by_cases hminus : c = '-'
    · rw [if_pos hminus] at h
      exfalso
      cases hp : parseDigits rest with
      | none => rw [hp] at h; simp at h
      | some n =>
        rw [hp] at h
        simp at h
        omega
    · rw [if_neg hminus] at h
      by_cases hplus : c = '+'
      · rw [if_pos hplus] at h
        cases hp : parseDigits rest with
        | none => rw [hp] at h; simp at h
        | some n =>
          intro x hx
          rcases List.mem_cons.mp hx with hx | hx
          · left; rw [hx, hplus]
          · right; exact parseDigits_chars hp x hx
      · rw [if_neg hplus] at h
        cases hp : parseDigits (c :: rest) with
        | none => rw [hp] at h; simp at h
        | some n =>
          intro x hx
          right
          exact parseDigits_chars hp x hx

theorem token_char_facts {l : List Char} {i : Int} (h : pyIntChars l = some i)
    (hi : 1 ≤ i) :
    ∀ c ∈ l, c.isWhitespace = false ∧ c ≠ ',' ∧ c ≠ '-' := by
  intro c hc
  rcases pyIntChars_pos_chars h hi c hc with hp | hd
  · subst hp
    exact ⟨by decide, by decide, by decide⟩
  · exact ⟨digit_not_ws c hd, (digit_ne_special c hd).1, (digit_ne_special c hd).2.1⟩

theorem dropWhile_eq_self_of {l : List Char} (p : Char → Bool)
    (h : ∀ c ∈ l, p c = false) : l.dropWhile p = l := by
  cases l with
  | nil => rfl
  | cons x xs =>
    rw [List.dropWhile_cons, h x (List.mem_cons_self x xs)]
    simp

theorem trimChars_eq_self {l : List Char} (h : ∀ c ∈ l, c.isWhitespace = false) :
    trimChars l = l := by
  unfold trimChars
  rw [dropWhile_eq_self_of _ h,
    dropWhile_eq_self_of _ (by intro c hc; exact h c (List.mem_reverse.mp hc)),
    List.reverse_reverse]

theorem splitOnChar_single {l : List Char} (c : Char) (h : ∀ x ∈ l, x ≠ c) :
    splitOnChar c l = [l] := by
  induction l with
  | nil => rfl
  | cons x xs ih =>
    unfold splitOnChar
    rw [if_neg (h x (List.mem_cons_self x xs))]
    rw [ih (fun y hy => h y (List.mem_cons_of_mem x hy))]

theorem splitFirst_append {l1 : List Char} (c : Char) (l2 : List Char)
    (h : ∀ x ∈ l1, x ≠ c) : splitFirst c (l1 ++ c :: l2) = (l1, l2) := by
  induction l1 with
  | nil =>
    unfold splitFirst
    simp
  | cons x xs ih =>
    rw [List.cons_append]
    unfold splitFirst
    rw [if_neg (h x (List.mem_cons_self x xs))]
    rw [ih (fun y hy => h y (List.mem_cons_of_mem x hy))]

/-! ## Claim C3 -/

theorem append_cons_isEmpty (l1 l2 : List Char) (c : Char) :
    ((l1 ++ c :: l2).isEmpty) = false := by
  cases l1 <;> rfl

/-- C3: the id-range validator accepts exactly the described strings: a
string of the form start-end (two integer tokens around a dash) with
1 <= start <= end validates and stores exactly that interval; the empty
string validates and stores the no-restriction None; the inputs 0-5, 5-2,
abc-5 and 5 each fail with a non-empty error message; and whenever
validation fails, the stored parsed ranges and the input text are left
untouched, so no range from the already-valid tokens is applied. -/
theorem C3_range_validator :
    (∀ (st : TranslationState) (l1 l2 : List Char) (i j : Int),
      pyIntChars l1 = some i → pyIntChars l2 = some j → 1 ≤ i → i ≤ j →
      st.translation_ranges.data = l1 ++ '-' :: l2 →
      validate_translation_ranges st =
        ({ st with translation_ranges_error := "",
                   parsed_id_ranges := some [⟨i, j⟩] }, true)) ∧
    (∀ st : TranslationState, st.translation_ranges = "" →
      validate_translation_ranges st =
        ({ st with translation_ranges_error := "", parsed_id_ranges := none }, true)) ∧
    (∀ e p, (validate_translation_ranges ⟨"0-5", e, p⟩).2 = false ∧
      (validate_translation_ranges ⟨"0-5", e, p⟩).1.translation_ranges_error ≠ "") ∧
    (∀ e p, (validate_translation_ranges ⟨"5-2", e, p⟩).2 = false ∧
      (validate_translation_ranges ⟨"5-2", e, p⟩).1.translation_ranges_error ≠ "") ∧
    (∀ e p, (validate_translation_ranges ⟨"abc-5", e, p⟩).2 = false ∧
      (validate_translation_ranges ⟨"abc-5", e, p⟩).1.translation_ranges_error ≠ "") ∧
    (∀ e p, (validate_translation_ranges ⟨"5", e, p⟩).2 = false ∧
      (validate_translation_ranges ⟨"5", e, p⟩).1.translation_ranges_error ≠ "") ∧
    (∀ st : TranslationState, (validate_translation_ranges st).2 = false →
      (validate_translation_ranges st).1.parsed_id_ranges = st.parsed_id_ranges ∧
      (validate_translation_ranges st).1.translation_ranges = st.translation_ranges) := by
  refine ⟨?_, ?_, ?_, ?_, ?_, ?_, ?_⟩
  · intro st l1 l2 i j h1 h2 hi hij hs
    have hj : (1 : Int) ≤ j := le_trans hi hij
    have hf1 := token_char_facts h1 hi
    have hf2 := token_char_facts h2 hj
    have htokws : ∀ c ∈ l1 ++ '-' :: l2, c.isWhitespace = false := by
      intro c hc
      rcases List.mem_append.mp hc with hc | hc
      · exact (hf1 c hc).1
      · rcases List.mem_cons.mp hc with hc | hc
        · subst hc; decide
        · exact (hf2 c hc).1
    have htrim : trimChars (l1 ++ '-' :: l2) = l1 ++ '-' :: l2 :=
      trimChars_eq_self htokws
    have hsplit : splitOnChar ',' (l1 ++ '-' :: l2) = [l1 ++ '-' :: l2] := by
      refine splitOnChar_single ',' ?_
      intro x hx
      rcases List.mem_append.mp hx with hx | hx
      · exact (hf1 x hx).2.1
      · rcases List.mem_cons.mp hx with hx | hx
        · subst hx; decide
        · exact (hf2 x hx).2.1
    have hcont : (l1 ++ '-' :: l2).contains '-' = true :=
      List.elem_iff.mpr (by simp)
    have hsf : splitFirst '-' (l1 ++ '-' :: l2) = (l1, l2) :=
      splitFirst_append '-' l2 (fun x hx => (hf1 x hx).2.2)
    have ht1 : trimChars l1 = l1 := trimChars_eq_self (fun c hc => (hf1 c hc).1)
    have ht2 : trimChars l2 = l2 := trimChars_eq_self (fun c hc => (hf2 c hc).1)
    have hloop : validateRangesChars [l1 ++ '-' :: l2] [] = (true, "", [⟨i, j⟩]) := by
      simp only [validateRangesChars, htrim, append_cons_isEmpty, Bool.false_eq_true,
        if_false, hcont, not_true, hsf]
      rw [ht1, ht2, h1, h2]
      simp only
      rw [if_neg (by omega), if_neg (by omega)]
      simp
    unfold validate_translation_ranges
    rw [hs, htrim, append_cons_isEmpty]
    rw [if_neg (by simp), hsplit, hloop]
    rfl
  · intro st h
    unfold validate_translation_ranges
    rw [h]
    rfl
  · intro e p
    refine ⟨rfl, ?_⟩
    have h : (validate_translation_ranges ⟨"0-5", e, p⟩).1.translation_ranges_error =
        "Invalid range: 0-5. IDs must be positive." := rfl
    rw [h]
    decide
  · intro e p
    refine ⟨rfl, ?_⟩
    have h : (validate_translation_ranges ⟨"5-2", e, p⟩).1.translation_ranges_error =
        "Invalid range: 5-2. Start must be less than or equal to end." := rfl
    rw [h]
    decide
  · intro e p
    refine ⟨rfl, ?_⟩
    have h : (validate_translation_ranges ⟨"abc-5", e, p⟩).1.translation_ranges_error =
        "Invalid range format: abc-5. Expected format: start-end with integer values." := rfl
    rw [h]
    decide
  · intro e p
    refine ⟨rfl, ?_⟩
    have h : (validate_translation_ranges ⟨"5", e, p⟩).1.translation_ranges_error =
        "Invalid range format: 5. Expected format: start-end" := rfl
    rw [h]
    decide
  · intro st h
    unfold validate_translation_ranges at h ⊢
    by_cases h1 : (trimChars st.translation_ranges.data).isEmpty = true
    · rw [if_pos h1] at h
      simp at h
    · rw [if_neg h1] at h ⊢
      by_cases h2 :
          (validateRangesChars (splitOnChar ',' st.translation_ranges.data) []).1 = true
      · rw [if_pos h2] at h
        simp at h
      · rw [if_neg h2]
        exact ⟨rfl, rfl⟩

/-- C3 witness: the universal part applied to the concrete input 3-7. -/
theorem C3_witness :
    validate_translation_ranges ⟨"3-7", "old", none⟩ =
      (⟨"3-7", "", some [⟨3, 7⟩]⟩, true) :=
  C3_range_validator.1 ⟨"3-7", "old", none⟩ ['3'] ['7'] 3 7 (by decide) (by decide)
    (by decide) (by decide) rfl

/-! ## Claim C9 -/

/-- C9: apply_translation_ranges is atomic over the parsed ranges: when the
ranges text is invalid the stored parsed_id_ranges is left unchanged — the
previously applied ranges stay in effect and only the error message field
changes — and the parsed ranges are replaced exactly when validation of the
whole input succeeds. -/
theorem C9_apply_ranges_atomic :
    (∀ d : TranslationSettingsDialog, (dialogValidateRanges d).1 = false →
      (apply_translation_ranges d).parsed_id_ranges = d.parsed_id_ranges ∧
      (apply_translation_ranges d).translation_ranges = d.translation_ranges ∧
      (apply_translation_ranges d).translation_ranges_error =
        (dialogValidateRanges d).2.1) ∧
    (∀ d : TranslationSettingsDialog, (dialogValidateRanges d).1 = true →
      apply_translation_ranges d =
        { d with translation_ranges_error := (dialogValidateRanges d).2.1,
                 parsed_id_ranges := (dialogValidateRanges d).2.2 }) := by
  constructor
  · intro d h
    simp only [apply_translation_ranges]
    rw [h]
    exact ⟨rfl, rfl, rfl⟩
  · intro d h
    simp only [apply_translation_ranges]
    rw [h]
    rfl

/-- C9 witness: the invalid-input part applied to a dialog holding the text
abc and previously applied ranges, which survive untouched. -/
theorem C9_witness :
    (apply_translation_ranges ⟨"abc", "", [⟨1, 2⟩]⟩).parsed_id_ranges = [⟨1, 2⟩] ∧
    (apply_translation_ranges ⟨"abc", "", [⟨1, 2⟩]⟩).translation_ranges = "abc" ∧
    (apply_translation_ranges ⟨"abc", "", [⟨1, 2⟩]⟩).translation_ranges_error =
      (dialogValidateRanges ⟨"abc", "", [⟨1, 2⟩]⟩).2.1 :=
  C9_apply_ranges_atomic.1 ⟨"abc", "", [⟨1, 2⟩]⟩ (by decide)

/-! ## Helper lemmas about the store tables -/

theorem le_foldr_max (i : Nat) (l : List Nat) (h : i ∈ l) : i ≤ l.foldr max 0 := by
  induction l with
  | nil => cases h
  | cons x xs ih =>
    rcases List.mem_cons.mp h with h | h
    · subst h; exact Nat.le_max_left _ _
    · exact le_trans (ih h) (Nat.le_max_right _ _)

theorem nextId_not_mem (ids : List Nat) : nextId ids ∉ ids := by
  intro h
  have := le_foldr_max _ ids h
  unfold nextId at this
  omega

theorem insertWordGetId_mem {tbl : List (Nat × String)} {w : String}
    (p : Nat × String) (h : p ∈ tbl) : p ∈ (insertWordGetId tbl w).1 := by
  unfold insertWordGetId
  cases hf : tbl.find? (fun p => p.2 = w) with
  | some q => exact h
  | none => exact List.mem_append_left _ h

theorem insertWordGetId_found {tbl : List (Nat × String)} {w : String} :
    ∃ s ∈ (insertWordGetId tbl w).1, s.1 = (insertWordGetId tbl w).2 ∧ s.2 = w := by
  unfold insertWordGetId
  cases hf : tbl.find? (fun p => p.2 = w) with
  | some q =>
    have hq := List.find?_some hf
    simp only [decide_eq_true_eq] at hq
    exact ⟨q, List.mem_of_find?_eq_some hf, rfl, hq⟩
  | none =>
    refine ⟨(nextId (tbl.map Prod.fst), w), ?_, rfl, rfl⟩
    exact List.mem_append_right _ (List.mem_singleton_self _)

theorem insertWordGetId_ids_nodup {tbl : List (Nat × String)} {w : String}
    (h : (tbl.map Prod.fst).Nodup) :
    (((insertWordGetId tbl w).1).map Prod.fst).Nodup := by
  unfold insertWordGetId
  cases hf : tbl.find? (fun p => p.2 = w) with
  | some q => exact h
  | none =>
    rw [List.map_append]
    rw [List.nodup_append]
    refine ⟨h, List.nodup_singleton _, ?_⟩
    intro x hx hy
    simp only [List.map_cons, List.map_nil, List.mem_singleton] at hy
    subst hy
    exact nextId_not_mem _ hx

theorem insertWordGetId_words_nodup {tbl : List (Nat × String)} {w : String}
    (h : (tbl.map Prod.snd).Nodup) :
    (((insertWordGetId tbl w).1).map Prod.snd).Nodup := by
  unfold insertWordGetId
  cases hf : tbl.find? (fun p => p.2 = w) with
  | some q => exact h
  | none =>
    rw [List.map_append]
    rw [List.nodup_append]
    refine ⟨h, List.nodup_singleton _, ?_⟩
    intro x hx hy
    simp only [List.map_cons, List.map_nil, List.mem_singleton] at hy
    subst hy
    rw [List.find?_eq_none] at hf
    obtain ⟨p, hp, hpw⟩ := List.mem_map.mp hx
    exact absurd (by simp [hpw]) (hf p hp)

theorem insertWordGetId_idem (tbl : List (Nat × String)) (w : String) :
    insertWordGetId (insertWordGetId tbl w).1 w =
      ((insertWordGetId tbl w).1, (insertWordGetId tbl w).2) := by
  unfold insertWordGetId
  cases hf : tbl.find? (fun p => p.2 = w) with
  | some q => simp [hf]
  | none =>
    simp only
    have hfind : (tbl ++ [(nextId (tbl.map Prod.fst), w)]).find? (fun p => p.2 = w) =
        some (nextId (tbl.map Prod.fst), w) := by
      rw [List.find?_append]
      rw [hf]
      simp
    rw [hfind]

theorem insertTranslation_mem {ts : List (Nat × Nat × Nat)} {sid bid : Nat}
    (t : Nat × Nat × Nat) (h : t ∈ ts) : t ∈ insertTranslation ts sid bid := by
  unfold insertTranslation
  split
  · exact h
  · exact List.mem_append_left _ h

theorem insertTranslation_found {ts : List (Nat × Nat × Nat)} {sid bid : Nat} :
    ∃ t ∈ insertTranslation ts sid bid, t.2.1 = sid ∧ t.2.2 = bid := by
  unfold insertTranslation
  split
  · rename_i hany
    rw [List.any_eq_true] at hany
    obtain ⟨t, ht, hp⟩ := hany
    simp only [decide_eq_true_eq] at hp
    exact ⟨t, ht, hp⟩
  · exact ⟨_, List.mem_append_right _ (List.mem_singleton_self _), rfl, rfl⟩

theorem insertTranslation_pairs_nodup {ts : List (Nat × Nat × Nat)} {sid bid : Nat}
    (h : (ts.map (fun t => t.2)).Nodup) :
    ((insertTranslation ts sid bid).map (fun t => t.2)).Nodup := by
  unfold insertTranslation
  split
  · exact h
  · rename_i hany
    rw [List.map_append]
    rw [List.nodup_append]
    refine ⟨h, List.nodup_singleton _, ?_⟩
    intro x hx hy
    simp only [List.map_cons, List.map_nil, List.mem_singleton] at hy
    subst hy
    obtain ⟨t, ht, htp⟩ := List.mem_map.mp hx
    refine hany ?_
    rw [List.any_eq_true]
    refine ⟨t, ht, ?_⟩
    simp only [decide_eq_true_eq]
    have h1 : t.2.1 = sid := by rw [htp]
    have h2 : t.2.2 = bid := by rw [htp]
    exact ⟨h1, h2⟩

theorem insertTranslation_of_found {ts : List (Nat × Nat × Nat)} {sid bid : Nat}
    (h : ∃ t ∈ ts, t.2.1 = sid ∧ t.2.2 = bid) :
    insertTranslation ts sid bid = ts := by
  unfold insertTranslation
  rw [if_pos]
  rw [List.any_eq_true]
  obtain ⟨t, ht, hp⟩ := h
  exact ⟨t, ht, by simp [hp.1, hp.2]⟩

/-! ## Load invariants -/

theorem loadRow_wf {st : Store} (h : StoreWF st) (row : String × String) :
    StoreWF (loadRow st row) := by
  simp only [loadRow]
  split
  · exact h
  · exact ⟨insertWordGetId_ids_nodup h.sIds, insertWordGetId_words_nodup h.sWords,
      insertWordGetId_ids_nodup h.bIds, insertWordGetId_words_nodup h.bWords,
      insertTranslation_pairs_nodup h.tPairs⟩

theorem loadRow_linked {st : Store} {sp bg : String} (h : Linked st sp bg)
    (row : String × String) : Linked (loadRow st row) sp bg := by
  obtain ⟨s, hs, b, hb, t, ht, hprops⟩ := h
  simp only [loadRow]
  split
  · exact ⟨s, hs, b, hb, t, ht, hprops⟩
  · exact ⟨s, insertWordGetId_mem s hs, b, insertWordGetId_mem b hb,
      t, insertTranslation_mem t ht, hprops⟩

theorem loadRow_establishes (st : Store) (row : String × String)
    (hsp : pyStrip row.1 ≠ "") (hbg : pyStrip row.2 ≠ "") :
    Linked (loadRow st row) (pyStrip row.1) (pyStrip row.2) := by
  unfold loadRow
  rw [if_neg (by push_neg; exact ⟨hsp, hbg⟩)]
  obtain ⟨s, hs, hsid, hsw⟩ :=
    @insertWordGetId_found st.spanish_words (pyStrip row.1)
  obtain ⟨b, hb, hbid, hbw⟩ :=
    @insertWordGetId_found st.bulgarian_words (pyStrip row.2)
  obtain ⟨t, ht, htp⟩ :=
    @insertTranslation_found st.translations
      (insertWordGetId st.spanish_words (pyStrip row.1)).2
      (insertWordGetId st.bulgarian_words (pyStrip row.2)).2
  exact ⟨s, hs, b, hb, t, ht, hsw, hbw, by rw [htp.1, hsid], by rw [htp.2, hbid]⟩

theorem foldl_loadRow_wf (rows : List (String × String)) (st : Store)
    (h : StoreWF st) : StoreWF (rows.foldl loadRow st) := by
  induction rows generalizing st with
  | nil => exact h
  | cons row rest ih => exact ih _ (loadRow_wf h row)

theorem loadFromRows_wf (rows : List (String × String)) :
    StoreWF (loadFromRows rows) :=
  foldl_loadRow_wf rows emptyStore
    ⟨List.nodup_nil, List.nodup_nil, List.nodup_nil, List.nodup_nil, List.nodup_nil⟩

theorem foldl_loadRow_linked {sp bg : String} (rows : List (String × String))
    (st : Store) (h : Linked st sp bg) : Linked (rows.foldl loadRow st) sp bg := by
  induction rows generalizing st with
  | nil => exact h
  | cons row rest ih => exact ih _ (loadRow_linked h row)

theorem load_mem_linked (rows : List (String × String)) (sp bg : String)
    (hmem : (sp, bg) ∈ rows) (hsp : pyStrip sp ≠ "") (hbg : pyStrip bg ≠ "") :
    Linked (loadFromRows rows) (pyStrip sp) (pyStrip bg) := by
  unfold loadFromRows
  suffices hgen : ∀ st : Store, Linked (rows.foldl loadRow st) (pyStrip sp) (pyStrip bg) by
    exact hgen emptyStore
  induction rows with
  | nil => cases hmem
  | cons row rest ih =>
    intro st
    rcases List.mem_cons.mp hmem with hmem1 | hmem1
    · subst hmem1
      exact foldl_loadRow_linked rest _ (loadRow_establishes st (sp, bg) hsp hbg)
    · exact ih hmem1 _

/-! ## Retrieval of linked pairs -/

theorem linked_mem_get_bulgarian {st : Store} {sp bg : String} (hwf : StoreWF st)
    (h : Linked st sp bg) : bg ∈ get_bulgarian_translations st sp := by
  obtain ⟨s, hs, b, hb, t, ht, hsw, hbw, hts, htb⟩ := h
  unfold get_bulgarian_translations
  rw [List.mem_filterMap]
  refine ⟨t, ht, ?_⟩
  rw [if_pos]
  · have hsome : (st.bulgarian_words.find? (fun x => x.1 = t.2.2)).isSome := by
      rw [List.find?_isSome]
      exact ⟨b, hb, by simp [htb]⟩
    obtain ⟨b2, hb2⟩ := Option.isSome_iff_exists.mp hsome
    have hb2p := List.find?_some hb2
    simp only [decide_eq_true_eq] at hb2p
    have hb2m := List.mem_of_find?_eq_some hb2
    have : b2 = b := by
      refine List.inj_on_of_nodup_map hwf.bIds hb2m hb ?_
      rw [hb2p, htb]
    rw [hb2, Option.map_some']
    rw [this, hbw]
  · rw [List.any_eq_true]
    exact ⟨s, hs, by simp [hts, hsw]⟩

theorem linked_mem_get_spanish {st : Store} {sp bg : String} (hwf : StoreWF st)
    (h : Linked st sp bg) : sp ∈ get_spanish_translations st bg := by
  obtain ⟨s, hs, b, hb, t, ht, hsw, hbw, hts, htb⟩ := h
  unfold get_spanish_translations
  rw [List.mem_filterMap]
  refine ⟨t, ht, ?_⟩
  rw [if_pos]
  · have hsome : (st.spanish_words.find? (fun x => x.1 = t.2.1)).isSome := by
      rw [List.find?_isSome]
      exact ⟨s, hs, by simp [hts]⟩
    obtain ⟨s2, hs2⟩ := Option.isSome_iff_exists.mp hsome
    have hs2p := List.find?_some hs2
    simp only [decide_eq_true_eq] at hs2p
    have hs2m := List.mem_of_find?_eq_some hs2
    have : s2 = s := by
      refine List.inj_on_of_nodup_map hwf.sIds hs2m hs ?_
      rw [hs2p, hts]
    rw [hs2, Option.map_some']
    rw [this, hsw]
  · rw [List.any_eq_true]
    exact ⟨b, hb, by simp [htb, hbw]⟩

/-! ## Claim C5 -/

/-- C5: round-trip between load and lookup — every row read during
load_translations whose two sides are non-empty after stripping is
retrievable in both directions from the loaded store: the stripped
bulgarian word is among get_bulgarian_translations of the stripped spanish
word, and conversely. -/
theorem C5_round_trip (rows : List (String × String)) (sp bg : String)
    (hmem : (sp, bg) ∈ rows) (hsp : pyStrip sp ≠ "") (hbg : pyStrip bg ≠ "") :
    pyStrip bg ∈ get_bulgarian_translations (loadFromRows rows) (pyStrip sp) ∧
    pyStrip sp ∈ get_spanish_translations (loadFromRows rows) (pyStrip bg) := by
  have h := load_mem_linked rows sp bg hmem hsp hbg
  have hwf := loadFromRows_wf rows
  exact ⟨linked_mem_get_bulgarian hwf h, linked_mem_get_spanish hwf h⟩

/-- C5 witness: the theorem applied to a concrete one-row file. -/
theorem C5_witness :
    pyStrip "здравей" ∈
      get_bulgarian_translations (loadFromRows [("hola", "здравей")]) (pyStrip "hola") ∧
    pyStrip "hola" ∈
      get_spanish_translations (loadFromRows [("hola", "здравей")]) (pyStrip "здравей") :=
  C5_round_trip [("hola", "здравей")] "hola" "здравей" (by decide) (by decide) (by decide)

/-! ## Nodup transport through the translation join -/

theorem nodup_filterMap_of_injOn {α β : Type} {f : α → Option β} {l : List α}
    (hl : l.Nodup)
    (hinj : ∀ a ∈ l, ∀ a' ∈ l, ∀ b, f a = some b → f a' = some b → a = a') :
    (l.filterMap f).Nodup := by
  induction l with
  | nil => simp
  | cons a rest ih =>
    rw [List.filterMap_cons]
    rcases List.nodup_cons.mp hl with ⟨hna, hrest⟩
    have hinj2 : ∀ x ∈ rest, ∀ y ∈ rest, ∀ b, f x = some b → f y = some b → x = y :=
      fun x hx y hy b hb1 hb2 =>
        hinj x (List.mem_cons_of_mem _ hx) y (List.mem_cons_of_mem _ hy) b hb1 hb2
    cases hfa : f a with
    | none => exact ih hrest hinj2
    | some b =>
      rw [List.nodup_cons]
      refine ⟨?_, ih hrest hinj2⟩
      intro hbmem
      obtain ⟨x, hx, hfx⟩ := List.mem_filterMap.mp hbmem
      have hax : a = x :=
        hinj a (List.mem_cons_self a rest) x (List.mem_cons_of_mem _ hx) b hfa hfx
      rw [hax] at hna
      exact hna hx

theorem snd_injOn_of_words_nodup {tbl : List (Nat × String)}
    (h : (tbl.map Prod.snd).Nodup) :
    ∀ x ∈ tbl, ∀ y ∈ tbl, x.2 = y.2 → x = y :=
  fun _ hx _ hy hxy => List.inj_on_of_nodup_map h hx hy hxy

theorem loadRow_empty (st : Store) (row : String × String)
    (h : pyStrip row.1 = "" ∨ pyStrip row.2 = "") : loadRow st row = st := by
  simp only [loadRow]
  rw [if_pos h]

theorem loadRow_nonempty (st : Store) (row : String × String)
    (h : ¬(pyStrip row.1 = "" ∨ pyStrip row.2 = "")) :
    loadRow st row =
      { spanish_words := (insertWordGetId st.spanish_words (pyStrip row.1)).1
        bulgarian_words := (insertWordGetId st.bulgarian_words (pyStrip row.2)).1
        translations := insertTranslation st.translations
          (insertWordGetId st.spanish_words (pyStrip row.1)).2
          (insertWordGetId st.bulgarian_words (pyStrip row.2)).2 } := by
  simp only [loadRow]
  rw [if_neg h]

theorem insertTranslation_idem (ts : List (Nat × Nat × Nat)) (sid bid : Nat) :
    insertTranslation (insertTranslation ts sid bid) sid bid =
      insertTranslation ts sid bid :=
  insertTranslation_of_found insertTranslation_found

theorem loadRow_idem (st : Store) (row : String × String) :
    loadRow (loadRow st row) row = loadRow st row := by
  by_cases h : pyStrip row.1 = "" ∨ pyStrip row.2 = ""
  · rw [loadRow_empty _ _ h, loadRow_empty _ _ h]
  · rw [loadRow_nonempty _ _ h, loadRow_nonempty _ _ h]
    simp only [insertWordGetId_idem, insertTranslation_idem]

/-! ## Claim C4 -/

/-- C4: store insertion is idempotent and keeps the uniqueness invariant.
After loading any row list the translations table holds at most one link per
distinct (spanish word id, bulgarian word id) pair, the translation listing
contains no duplicate (source word, target word) entry, and re-running the
load body on a row already loaded leaves the whole store — the link table
included — unchanged rather than creating a new link. -/
theorem C4_insertion_idempotent_unique (rows : List (String × String))
    (st : Store) (row : String × String) :
    ((loadFromRows rows).translations.map (fun t => t.2)).Nodup ∧
    ((get_translations_es (loadFromRows rows)).map (fun e => (e.2.1, e.2.2))).Nodup ∧
    loadRow (loadRow st row) row = loadRow st row := by
  have hwf := loadFromRows_wf rows
  refine ⟨hwf.tPairs, ?_, loadRow_idem st row⟩
  set db := loadFromRows rows with hdb
  unfold get_translations_es
  rw [List.map_flatMap]
  rw [List.nodup_flatMap]
  have htnodup : db.translations.Nodup := hwf.tPairs.of_map _
  have hmem_shape : ∀ (s : Nat × String) (v : String × String),
      v ∈ ((db.translations.filter (fun t => t.2.1 = s.1)).filterMap
        (fun t => (db.bulgarian_words.find? (fun b => b.1 = t.2.2)).map
          (fun b => (t.1, s.2, b.2)))).map (fun e => (e.2.1, e.2.2)) →
      v.1 = s.2 := by
    intro s v hv
    obtain ⟨e, he, hge⟩ := List.mem_map.mp hv
    obtain ⟨t, -, hte⟩ := List.mem_filterMap.mp he
    obtain ⟨b, -, hbe⟩ := Option.map_eq_some'.mp hte
    rw [← hge, ← hbe]
  constructor
  · intro s hs
    rw [List.map_filterMap]
    refine nodup_filterMap_of_injOn (htnodup.filter _) ?_
    intro t ht t' ht' v hv hv'
    simp only [Option.map_map] at hv hv'
    obtain ⟨b, hbfind, hbv⟩ := Option.map_eq_some'.mp hv
    obtain ⟨b', hbfind', hbv'⟩ := Option.map_eq_some'.mp hv'
    have hb1 := List.find?_some hbfind
    have hb1' := List.find?_some hbfind'
    simp only [decide_eq_true_eq] at hb1 hb1'
    have hbmem := List.mem_of_find?_eq_some hbfind
    have hbmem' := List.mem_of_find?_eq_some hbfind'
    have hsnd : b.2 = b'.2 := by
      have h1 : ((fun e => (e.2.1, e.2.2)) ∘ fun b => (t.1, s.2, b.2)) b = v := hbv
      have h2 : ((fun e => (e.2.1, e.2.2)) ∘ fun b => (t'.1, s.2, b.2)) b' = v := hbv'
      simp only [Function.comp] at h1 h2
      have := h1.trans h2.symm
      exact (Prod.mk.injEq _ _ _ _).mp this |>.2
    have hbb : b = b' := snd_injOn_of_words_nodup hwf.bWords b hbmem b' hbmem' hsnd
    have htfilter := List.mem_filter.mp ht
    have htfilter' := List.mem_filter.mp ht'
    simp only [decide_eq_true_eq] at htfilter htfilter'
    have hpair : t.2 = t'.2 := by
      have hx1 : t.2.1 = t'.2.1 := by rw [htfilter.2, htfilter'.2]
      have hx2 : t.2.2 = t'.2.2 := by rw [← hb1, ← hb1', hbb]
      exact Prod.ext hx1 hx2
    exact List.inj_on_of_nodup_map hwf.tPairs htfilter.1 htfilter'.1 hpair
  · have hp : db.spanish_words.Pairwise (fun a b => a.2 ≠ b.2) := by
      have h := hwf.sWords
      rw [List.Nodup, List.pairwise_map] at h
      exact h
    refine hp.imp ?_
    intro a b hne v hva hvb
    have h1 := hmem_shape a v hva
    have h2 := hmem_shape b v hvb
    exact hne (h1 ▸ h2 ▸ rfl)
